import Mathlib

/-!
Verification of `jm::memory_signature` (include/memory_signature.hpp).

The header defines a single class holding an owned byte buffer `_pattern`,
a past-the-end pointer `_end` and a `_wildcard` byte.  We model it at two
levels:

* a functional model (`memory_signature`, `find`, `find_wildcard_bits`,
  `find_wildcard_masked`, `masked_to_wilcard`, `construct_masked`,
  `construct_wildcard`) in which the buffer is a `List Nat` of byte values;
* a pointer-level model (`RawSig`, `rawFind`, `rawMoveCtor`,
  `rawCopyCtor`, `rawCopyAssign`, `rawCopyAssignSelf`) that also records
  the numeric addresses held by `_pattern` and `_end`, because the move
  operations and self-assignment manipulate those pointers directly.
  `rawFind` returns `none` when the stored pointer pair does not delimit
  the owned allocation (dereferencing it in C++ would be undefined).

Bytes are `Nat`s; the `static_cast<unsigned char>` of the caller-supplied
wildcard is modelled as reduction mod 256.  Exceptions are modelled with
`Except ConsErr`; the masked constructors additionally return `Option`
because C++ reads past the end of the mask when the mask is shorter than
the literal (`none` marks that undefined read).
-/

/-- Construction errors of the masked constructors:
`std::invalid_argument("pattern size did not match mask size")` and
`std::range_error("unable to find unused byte in the provided pattern")`. -/
inductive ConsErr where
  | lengthMismatch
  | unrepresentable
deriving DecidableEq

/-- Functional view of the class state: the bytes of `[_pattern, _end)`
and the `_wildcard` byte. -/
structure memory_signature where
  pattern : List Nat
  wildcard : Nat
deriving DecidableEq

/-- One window comparison of `std::search`: the buffer prefix `buf`
matches the whole needle `pat` under the predicate
`lhs == rhs || rhs == wildcard` (lhs from the buffer, rhs from the
pattern), and `pat` must fit inside `buf`. -/
def window_match (w : Nat) : List Nat → List Nat → Bool
  | _, [] => true
  | [], _ :: _ => false
  | b :: bs, p :: ps => (b == p || p == w) && window_match w bs ps

/-- `std::search(first, last, _pattern.get(), _end, pred)` over offsets:
returns the offset of the first window of `buf` matching `pat`, and
`buf.length` (i.e. `last`) when no window matches. -/
def search (w : Nat) (pat : List Nat) : List Nat → Nat
  | [] => 0
  | b :: bs => if window_match w (b :: bs) pat then 0 else search w pat bs + 1

/-- `memory_signature::find(first, last)` (lines 167-177): returns `last`
when the pattern is empty, otherwise delegates to `std::search`.  Offsets
stand for iterators, so "not found" is `buf.length`. -/
def find (sig : memory_signature) (buf : List Nat) : Nat :=
  if sig.pattern = [] then buf.length
  else search sig.wildcard sig.pattern buf

/-- The wildcard-tagged constructors (lines 118-134): the bytes are copied
verbatim and the caller-supplied wildcard is `static_cast` to one byte. -/
def construct_wildcard (pat : List Nat) (w : Int) : memory_signature :=
  ⟨pat, (w % 256).toNat⟩

/-- The scan loop of `detail::find_wildcard` (lines 36-38):
`for (i = 0; i < 256; ++i) if (!bits[i]) return i;` started at `i` with
`n` iterations left; `none` models falling through to the `throw`. -/
def scanFrom (bits : Nat → Bool) : Nat → Nat → Option Nat
  | _, 0 => none
  | i, n + 1 => if bits i then scanFrom bits (i + 1) n else some i

/-- The marking loop of `detail::find_wildcard` with the comparator of
`detail::find_wildcard_masked` inlined: for each pattern byte the loop
executes `bits[*first] = (*mask_first++ != unknown)` — an overwriting
assignment, not an OR.  When the mask runs out before the pattern the C++
dereferences the mask iterator past the end, which we model as `none`. -/
def find_wildcard_bits (u : Nat) : List Nat → List Nat → (Nat → Bool) → Option (Nat → Bool)
  | [], _, bits => some bits
  | p :: ps, m :: ms, bits =>
      find_wildcard_bits u ps ms (fun v => if v = p then m != u else bits v)
  | _ :: _, [], _ => none

/-- `detail::find_wildcard_masked` (lines 44-49): mark the 256-entry
table, then scan it; an exhausted table raises the range error. -/
def find_wildcard_masked (pat mask : List Nat) (u : Nat) : Option (Except ConsErr Nat) :=
  match find_wildcard_bits u pat mask (fun _ => false) with
  | none => none
  | some bits =>
    match scanFrom bits 0 256 with
    | some i => some (Except.ok i)
    | none => some (Except.error ConsErr.unrepresentable)

/-- `memory_signature::masked_to_wilcard` (lines 62-72): rewrite every
mask-unknown position to the derived wildcard byte.  It is only invoked
after the length check has passed, so the lengths agree there. -/
def masked_to_wilcard (u w : Nat) : List Nat → List Nat → List Nat
  | [], _ => []
  | _ :: _, [] => []
  | p :: ps, m :: ms => (if m != u then p else w) :: masked_to_wilcard u w ps ms

/-- The masked constructors (lines 137-162).  The member initializer list
runs first: it allocates the buffer and calls
`detail::find_wildcard_masked`; only then does the constructor body check
`pattern.size() != mask.size()` and finally rewrite the buffer. -/
def construct_masked (pat mask : List Nat) (u : Nat) : Option (Except ConsErr memory_signature) :=
  match find_wildcard_masked pat mask u with
  | none => none
  | some (Except.error e) => some (Except.error e)
  | some (Except.ok w) =>
      if pat.length ≠ mask.length then some (Except.error ConsErr.lengthMismatch)
      else some (Except.ok ⟨masked_to_wilcard u w pat mask, w⟩)

/-- Specification-side description of the table the marking loop builds:
a byte value is marked iff its last occurrence in the literal sits at a
mask position different from the unknown sentinel (later occurrences
overwrite earlier ones). -/
def lastKnownB (pat mask : List Nat) (u v : Nat) : Bool :=
  match ((pat.zip mask).reverse.find? (fun e => e.1 == v)) with
  | some e => e.2 != u
  | none => false

/-- The matching condition of the specification at window offset `k`:
the window fits and at every pattern position the buffer byte equals the
pattern byte or the pattern byte equals the wildcard. -/
def matchesAt (w : Nat) (buf pat : List Nat) (k : Nat) : Prop :=
  k + pat.length ≤ buf.length ∧
  ∀ i, i < pat.length → (buf.getD (k + i) 0 = pat.getD i 0 ∨ pat.getD i 0 = w)

instance (w : Nat) (buf pat : List Nat) (k : Nat) : Decidable (matchesAt w buf pat k) := by
  unfold matchesAt; infer_instance

/-- Pointer-level state of the class over a flat address space:
`patBase` is the address held by the `_pattern` unique_ptr (0 = null),
`patBuf` the bytes of the owned allocation, `endAddr` the address held by
`_end`, `wildcard` the `_wildcard` byte. -/
structure RawSig where
  patBase : Nat
  patBuf : List Nat
  endAddr : Nat
  wildcard : Nat
deriving DecidableEq

/-- `memory_signature::size()` (line 59): `_end - _pattern.get()`. -/
def RawSig.size (s : RawSig) : Nat := s.endAddr - s.patBase

/-- A state the constructors actually produce: either the default state
(null, null) or an allocation at a non-null base with `_end` one past its
final byte. -/
def RawWF (s : RawSig) : Prop :=
  (s.patBase = 0 ∧ s.patBuf = [] ∧ s.endAddr = 0) ∨
  (1 ≤ s.patBase ∧ s.endAddr = s.patBase + s.patBuf.length)

instance (s : RawSig) : Decidable (RawWF s) := by
  unfold RawWF; infer_instance

/-- A wildcard-tagged constructor at allocation address `a` (`operator new[]`
never returns null, so callers instantiate `a ≥ 1`). -/
def rawConstruct (pat : List Nat) (w : Nat) (a : Nat) : RawSig :=
  ⟨a, pat, a + pat.length, w % 256⟩

/-- The default constructor (lines 76-79): all pointers null. -/
def rawDefault : RawSig := ⟨0, [], 0, 0⟩

/-- `memory_signature::find` at the pointer level.  The guard is the
pointer comparison `_pattern.get() == _end`; when it fails the pattern
range handed to `std::search` is `[_pattern.get(), _end)`, which is a
valid range only if `_pattern` is non-null and `_end` lies inside the
owned allocation — otherwise the scan dereferences invalid memory and we
return `none` (undefined behaviour). -/
def rawFind (s : RawSig) (buf : List Nat) : Option Nat :=
  if s.patBase = s.endAddr then some buf.length
  else if s.patBase = 0 ∨ s.endAddr < s.patBase ∨ s.patBase + s.patBuf.length < s.endAddr then
    none
  else some (search s.wildcard (s.patBuf.take (s.endAddr - s.patBase)) buf)

/-- The move constructor (lines 103-106): the destination takes all three
fields; the source's unique_ptr becomes null but its `_end` and
`_wildcard` are left untouched.  Returns (destination, source after). -/
def rawMoveCtor (other : RawSig) : RawSig × RawSig :=
  (⟨other.patBase, other.patBuf, other.endAddr, other.wildcard⟩,
   ⟨0, [], other.endAddr, other.wildcard⟩)

/-- The copy constructor (lines 84-91): allocate `other.size()` bytes at
`a`, copy `[other._pattern.get(), other._end)` into them, set `_end` to
the new base plus `other.size()`. -/
def rawCopyCtor (other : RawSig) (a : Nat) : RawSig :=
  ⟨a, other.patBuf.take other.size, a + other.size, other.wildcard⟩

/-- Copy assignment (lines 93-101) from a distinct object: behaviourally
identical to the copy constructor (the old buffer of the destination is
released in between, and `other.size()` in the final `_end` computation
still reads the untouched source). -/
def rawCopyAssign (_dst other : RawSig) (a : Nat) : RawSig :=
  ⟨a, other.patBuf.take other.size, a + other.size, other.wildcard⟩

/-- Copy assignment when `other` aliases `*this` (`p = p`), with the new
buffer allocated at `a`.  The copy of `[_pattern.get(), _end)` into the
new buffer uses the old fields, but the statement
`_end = _pattern.get() + other.size()` runs after `_pattern` was already
replaced, so `other.size()` evaluates to `_end - a` (old `_end`, new
base) and `_end` keeps the old buffer's past-the-end address. -/
def rawCopyAssignSelf (s : RawSig) (a : Nat) : RawSig :=
  ⟨a, s.patBuf.take (s.endAddr - s.patBase), a + (s.endAddr - a), s.wildcard⟩

/-! ### Properties of the wildcard-derivation scan -/

theorem scanFrom_some (bits : Nat → Bool) :
    ∀ n i j, scanFrom bits i n = some j →
      i ≤ j ∧ j < i + n ∧ bits j = false ∧ ∀ k, i ≤ k → k < j → bits k = true := by
  intro n
  induction n with
  | zero => intro i j h; simp [scanFrom] at h
  | succ n ih =>
    intro i j h
    cases hb : bits i with
    | true =>
      rw [scanFrom, hb, if_pos rfl] at h
      obtain ⟨h1, h2, h3, h4⟩ := ih (i + 1) j h
      refine ⟨by omega, by omega, h3, ?_⟩
      intro k hk1 hk2
      rcases Nat.eq_or_lt_of_le hk1 with rfl | hlt
      · exact hb
      · exact h4 k hlt hk2
    | false =>
      rw [scanFrom, hb] at h
      simp only [if_neg Bool.false_ne_true, Option.some.injEq] at h
      subst h
      exact ⟨Nat.le_refl i, by omega, hb, fun k hk1 hk2 => absurd (Nat.lt_of_le_of_lt hk1 hk2) (Nat.lt_irrefl i)⟩

theorem scanFrom_none (bits : Nat → Bool) :
    ∀ n i, scanFrom bits i n = none ↔ ∀ k, i ≤ k → k < i + n → bits k = true := by
  intro n
  induction n with
  | zero => intro i; simp [scanFrom]; omega
  | succ n ih =>
    intro i
    cases hb : bits i with
    | true =>
      rw [scanFrom, hb, if_pos rfl, ih (i + 1)]
      constructor
      · intro h k hk1 hk2
        rcases Nat.eq_or_lt_of_le hk1 with rfl | hlt
        · exact hb
        · exact h k hlt (by omega)
      · intro h k hk1 hk2
        exact h k (by omega) (by omega)
    | false =>
      rw [scanFrom, hb]
      simp only [if_neg Bool.false_ne_true]
      constructor
      · intro h; exact absurd h (by simp)
      · intro h
        have := h i (Nat.le_refl i) (by omega)
        rw [hb] at this
        exact absurd this (by simp)

/-! ### The bit table records the classification of the last occurrence -/

theorem find_wildcard_bits_eq (u : Nat) :
    ∀ (pat mask : List Nat) (b : Nat → Bool), pat.length ≤ mask.length →
      find_wildcard_bits u pat mask b = some (fun v =>
        match ((pat.zip mask).reverse.find? (fun e => e.1 == v)) with
        | some e => e.2 != u
        | none => b v) := by
  intro pat
  induction pat with
  | nil => intro mask b _; rfl
  | cons p ps ih =>
    intro mask b h
    cases mask with
    | nil => simp at h
    | cons m ms =>
      rw [find_wildcard_bits, ih ms _ (by simpa using h)]
      refine congrArg some (funext fun v => ?_)
      simp only [List.zip_cons_cons, List.reverse_cons, List.find?_append]
      cases h' : (ps.zip ms).reverse.find? (fun e => e.1 == v) with
      | some e => rfl
      | none =>
        simp only [Option.none_or, List.find?]
        by_cases hv : v = p
        · subst hv
          simp
        · have hpv : (p == v) = false := by
            simp only [beq_eq_false_iff_ne, ne_eq]
            exact fun hc => hv hc.symm
          simp [hpv, hv]

theorem find_wildcard_bits_false (pat mask : List Nat) (u : Nat)
    (h : pat.length ≤ mask.length) :
    find_wildcard_bits u pat mask (fun _ => false) = some (lastKnownB pat mask u) := by
  rw [find_wildcard_bits_eq u pat mask _ h]
  exact congrArg some (funext fun v => by unfold lastKnownB; rfl)

theorem find_wildcard_masked_eq (pat mask : List Nat) (u : Nat)
    (h : pat.length ≤ mask.length) :
    find_wildcard_masked pat mask u =
      some (match scanFrom (lastKnownB pat mask u) 0 256 with
            | some i => Except.ok i
            | none => Except.error ConsErr.unrepresentable) := by
  unfold find_wildcard_masked
  rw [find_wildcard_bits_false pat mask u h]
  cases h' : scanFrom (lastKnownB pat mask u) 0 256 with
  | none => simp [h']
  | some i => simp [h']

/-! ### Properties of the search -/

theorem getD_drop (l : List Nat) : ∀ k i, (l.drop k).getD i 0 = l.getD (k + i) 0 := by
  induction l with
  | nil => intro k i; simp
  | cons x xs ih =>
    intro k i
    cases k with
    | zero => rw [List.drop_zero, Nat.zero_add]
    | succ k =>
      rw [List.drop_succ_cons, ih k i]
      have hki : k + 1 + i = k + i + 1 := by omega
      rw [hki, List.getD_cons_succ]

theorem window_match_iff (w : Nat) :
    ∀ (pat buf : List Nat), window_match w buf pat = true ↔
      (pat.length ≤ buf.length ∧
        ∀ i, i < pat.length → (buf.getD i 0 = pat.getD i 0 ∨ pat.getD i 0 = w)) := by
  intro pat
  induction pat with
  | nil =>
    intro buf
    cases buf <;> simp [window_match]
  | cons p ps ih =>
    intro buf
    cases buf with
    | nil => simp [window_match]
    | cons b bs =>
      rw [window_match]
      simp only [Bool.and_eq_true, Bool.or_eq_true, beq_iff_eq, ih bs, List.length_cons]
      constructor
      · rintro ⟨h0, hlen, hrest⟩
        refine ⟨by omega, ?_⟩
        intro i hi
        cases i with
        | zero => simpa using h0
        | succ i =>
          simpa only [List.getD_cons_succ] using hrest i (by omega)
      · rintro ⟨hlen, hall⟩
        refine ⟨by simpa using hall 0 (by omega), by omega, ?_⟩
        intro i hi
        simpa only [List.getD_cons_succ] using hall (i + 1) (by omega)

theorem search_le (w : Nat) (pat : List Nat) : ∀ buf, search w pat buf ≤ buf.length := by
  intro buf
  induction buf with
  | nil => simp [search]
  | cons b bs ih =>
    rw [search]
    by_cases h : window_match w (b :: bs) pat = true
    · simp [h]
    · rw [if_neg h]
      simpa using Nat.succ_le_succ ih

theorem search_spec (w : Nat) (pat : List Nat) :
    ∀ buf, window_match w (buf.drop (search w pat buf)) pat = true ∨
      search w pat buf = buf.length := by
  intro buf
  induction buf with
  | nil => right; rfl
  | cons b bs ih =>
    rw [search]
    by_cases h : window_match w (b :: bs) pat = true
    · rw [if_pos h]; left; simpa using h
    · rw [if_neg h]
      rcases ih with h' | h'
      · left; simpa using h'
      · right; simpa using h'

theorem search_min (w : Nat) (pat : List Nat) :
    ∀ buf j, j < search w pat buf → window_match w (buf.drop j) pat = false := by
  intro buf
  induction buf with
  | nil => intro j hj; simp [search] at hj
  | cons b bs ih =>
    intro j hj
    rw [search] at hj
    by_cases h : window_match w (b :: bs) pat = true
    · rw [if_pos h] at hj; omega
    · rw [if_neg h] at hj
      cases j with
      | zero => simpa using Bool.eq_false_iff.mpr h
      | succ j =>
        rw [List.drop_succ_cons]
        exact ih j (by omega)

theorem search_shorter (w : Nat) (pat buf : List Nat)
    (hlen : buf.length < pat.length) : search w pat buf = buf.length := by
  rcases search_spec w pat buf with h | h
  · exfalso
    rw [window_match_iff] at h
    have := h.1
    rw [List.length_drop] at this
    omega
  · exact h

theorem window_match_drop (w : Nat) (pat buf : List Nat) (hp : pat ≠ []) (k : Nat) :
    window_match w (buf.drop k) pat = true ↔ matchesAt w buf pat k := by
  rw [window_match_iff, matchesAt]
  have hlen : (buf.drop k).length = buf.length - k := List.length_drop ..
  have hpos : 0 < pat.length := List.length_pos.mpr hp
  constructor
  · rintro ⟨h1, h2⟩
    refine ⟨by omega, ?_⟩
    intro i hi
    have := h2 i hi
    rwa [getD_drop] at this
  · rintro ⟨h1, h2⟩
    refine ⟨by omega, ?_⟩
    intro i hi
    rw [getD_drop]
    exact h2 i hi

/-! ### Pointer-level facts -/

theorem rawFind_mk (a : Nat) (pat : List Nat) (w' : Nat) (ha : 1 ≤ a) (buf : List Nat) :
    rawFind ⟨a, pat, a + pat.length, w'⟩ buf =
      some (if pat = [] then buf.length else search w' pat buf) := by
  by_cases hp : pat = []
  · subst hp
    simp [rawFind]
  · have hlen : 0 < pat.length := List.length_pos.mpr hp
    unfold rawFind
    simp only
    rw [if_neg (by omega), if_neg (by push_neg; refine ⟨by omega, by omega, by omega⟩)]
    rw [Nat.add_sub_cancel_left, List.take_length pat, if_neg hp]

theorem rawFind_copy (s : RawSig) (a : Nat) (h : RawWF s) (ha : 1 ≤ a) (buf : List Nat) :
    rawFind ⟨a, s.patBuf.take s.size, a + s.size, s.wildcard⟩ buf = rawFind s buf := by
  obtain ⟨b, pb, e, w⟩ := s
  rcases h with ⟨hb, hbuf, he⟩ | ⟨hb, he⟩
  · simp only at hb hbuf he
    subst hb; subst hbuf; subst he
    simp [rawFind, RawSig.size]
  · simp only at hb he
    subst he
    have hsz : (⟨b, pb, b + pb.length, w⟩ : RawSig).size = pb.length := by
      simp [RawSig.size]
    simp only [hsz]
    rw [List.take_length pb, rawFind_mk a pb w ha buf, rawFind_mk b pb w hb buf]

/-! ### Claims about the masked construction -/

/-- C1 (amended): mask-described wildcard derivation applies an overwrite
(last occurrence wins) reduction, not an OR: the table the marking loop
builds coincides with `lastKnownB`, which classifies each byte value by
its last occurrence only.  For the literal `[0x10, 0x10]` with mask
known/unknown, the derived wildcard is `0x00`, not `0x10`, and the
constructed Pattern is `[0x10, 0x00]` with wildcard `0x00`. -/
theorem derivation_uses_last_occurrence (pat mask : List Nat) (u : Nat)
    (h : pat.length ≤ mask.length) :
    find_wildcard_masked pat mask u =
      some (match scanFrom (lastKnownB pat mask u) 0 256 with
            | some i => Except.ok i
            | none => Except.error ConsErr.unrepresentable) ∧
    construct_masked [16, 16] [120, 63] 63 = some (Except.ok ⟨[16, 0], 0⟩) :=
  ⟨find_wildcard_masked_eq pat mask u h, rfl⟩

/-- Witness: the last-occurrence derivation theorem at a concrete input. -/
theorem derivation_uses_last_occurrence_witness :
    ([7] : List Nat).length ≤ ([120] : List Nat).length ∧
    (find_wildcard_masked [7] [120] 63 =
      some (match scanFrom (lastKnownB [7] [120] 63) 0 256 with
            | some i => Except.ok i
            | none => Except.error ConsErr.unrepresentable) ∧
     construct_masked [16, 16] [120, 63] 63 = some (Except.ok ⟨[16, 0], 0⟩)) :=
  ⟨by decide, derivation_uses_last_occurrence [7] [120] 63 (by decide)⟩

/-- Counterexample to C1 as stated: in the literal `[0x00, 0x00]` with
mask known/unknown, the value `0x00` occurs at a known (non-wildcard)
position, yet construction selects `0x00` as the internal wildcard byte
(the unknown-classified second occurrence overwrote the marking). -/
theorem or_reduction_counterexample :
    construct_masked [0, 0] [120, 63] 63 = some (Except.ok ⟨[0, 0], 0⟩) ∧
    List.getD [0, 0] 0 0 = 0 ∧ List.getD [120, 63] 0 0 ≠ 63 :=
  ⟨rfl, rfl, by decide⟩

/-- C2 (amended): in the masked constructors the wildcard derivation runs
in the member initializer list before the length check in the constructor
body.  With mismatched lengths (and the mask at least as long as the
literal, the shorter-mask case being an out-of-bounds read) construction
still fails before any Pattern is produced, but the error reported is the
length mismatch only when derivation itself succeeded; when derivation
exhausts the table first, the unrepresentable error escapes instead. -/
theorem length_mismatch_after_derivation (pat mask : List Nat) (u : Nat)
    (hne : pat.length ≠ mask.length) (hle : pat.length ≤ mask.length) :
    (∃ e, construct_masked pat mask u = some (Except.error e)) ∧
    ∀ w, find_wildcard_masked pat mask u = some (Except.ok w) →
      construct_masked pat mask u = some (Except.error ConsErr.lengthMismatch) := by
  have hch := find_wildcard_masked_eq pat mask u hle
  constructor
  · cases h' : scanFrom (lastKnownB pat mask u) 0 256 with
    | none =>
      refine ⟨ConsErr.unrepresentable, ?_⟩
      unfold construct_masked
      rw [hch, h']
    | some i =>
      refine ⟨ConsErr.lengthMismatch, ?_⟩
      unfold construct_masked
      rw [hch, h']
      simp [hne]
  · intro w hw
    unfold construct_masked
    rw [hw]
    simp [hne]

/-- Witness: the amended length-mismatch theorem at a concrete input. -/
theorem length_mismatch_after_derivation_witness :
    (([0] : List Nat).length ≠ ([120, 120] : List Nat).length ∧
      ([0] : List Nat).length ≤ ([120, 120] : List Nat).length) ∧
    ((∃ e, construct_masked [0] [120, 120] 63 = some (Except.error e)) ∧
      ∀ w, find_wildcard_masked [0] [120, 120] 63 = some (Except.ok w) →
        construct_masked [0] [120, 120] 63 = some (Except.error ConsErr.lengthMismatch)) :=
  ⟨⟨by decide, by decide⟩,
    length_mismatch_after_derivation [0] [120, 120] 63 (by decide) (by decide)⟩

set_option maxRecDepth 4000 in
/-- Counterexample to C2 as stated: the literal `[0, 1, ..., 255]` with a
257-entry all-known mask has mismatched lengths, yet construction fails
with the unrepresentable error, not the length mismatch, because the
derivation in the initializer list runs (and throws) before the length
check in the constructor body is reached. -/
theorem length_check_order_counterexample :
    (List.range 256).length ≠ (List.replicate 257 120 : List Nat).length ∧
    construct_masked (List.range 256) (List.replicate 257 120) 63
      = some (Except.error ConsErr.unrepresentable) :=
  ⟨by decide, rfl⟩

/-- C4 (amended): the derived wildcard byte is the first value in scan
order 0..255 whose table entry is unmarked, where a value's entry records
the known/unknown classification of its last occurrence in the literal
(overwrite semantics); the unrepresentable error is raised iff every
value in 0..255 is marked under that last-occurrence table — not iff
every value occurs at some known position. -/
theorem derived_wildcard_scan (pat mask : List Nat) (u : Nat)
    (h : pat.length ≤ mask.length) :
    (∀ w, find_wildcard_masked pat mask u = some (Except.ok w) →
        w < 256 ∧ lastKnownB pat mask u w = false ∧
          ∀ v, v < w → lastKnownB pat mask u v = true) ∧
    (find_wildcard_masked pat mask u = some (Except.error ConsErr.unrepresentable) ↔
        ∀ v, v < 256 → lastKnownB pat mask u v = true) := by
  have hch := find_wildcard_masked_eq pat mask u h
  cases h' : scanFrom (lastKnownB pat mask u) 0 256 with
  | some i =>
    rw [h'] at hch
    obtain ⟨h1, h2, h3, h4⟩ := scanFrom_some (lastKnownB pat mask u) 256 0 i h'
    constructor
    · intro w hw
      rw [hch] at hw
      simp only [Option.some.injEq, Except.ok.injEq] at hw
      subst hw
      exact ⟨by omega, h3, fun v hv => h4 v (by omega) hv⟩
    · rw [hch]
      constructor
      · intro hc
        simp at hc
      · intro hall
        exfalso
        have := hall i (by omega)
        rw [h3] at this
        exact Bool.false_ne_true this
  | none =>
    rw [h'] at hch
    rw [scanFrom_none] at h'
    constructor
    · intro w hw
      rw [hch] at hw
      simp at hw
    · rw [hch]
      constructor
      · intro _ v hv
        exact h' v (by omega) (by omega)
      · intro _
        rfl

/-- Witness: the amended derivation-scan theorem at a concrete input. -/
theorem derived_wildcard_scan_witness :
    ([7] : List Nat).length ≤ ([63] : List Nat).length ∧
    ((∀ w, find_wildcard_masked [7] [63] 63 = some (Except.ok w) →
        w < 256 ∧ lastKnownB [7] [63] 63 w = false ∧
          ∀ v, v < w → lastKnownB [7] [63] 63 v = true) ∧
     (find_wildcard_masked [7] [63] 63 = some (Except.error ConsErr.unrepresentable) ↔
        ∀ v, v < 256 → lastKnownB [7] [63] 63 v = true)) :=
  ⟨by decide, derived_wildcard_scan [7] [63] 63 (by decide)⟩

set_option maxRecDepth 4000 in
/-- Counterexample to C4 as stated: in the literal `[0, 1, ..., 255, 0]`
with the first 256 positions known and the final position (value 0)
unknown, every byte value 0..255 occurs at some known position, yet
derivation does not fail: the trailing unknown occurrence of 0 unmarks
its entry, and construction succeeds with derived wildcard 0. -/
theorem unrepresentable_iff_counterexample :
    ((List.range 256).all (fun v =>
        ((List.range 256 ++ [0]).zip (List.replicate 256 120 ++ [63])).any
          (fun e => e.1 == v && e.2 != 63)) = true) ∧
    construct_masked (List.range 256 ++ [0]) (List.replicate 256 120 ++ [63]) 63
      = some (Except.ok ⟨List.range 256 ++ [0], 0⟩) :=
  ⟨rfl, rfl⟩

/-! ### Claims about the search operation -/

/-- C3 (amended, restricted to nonempty patterns): for every Pattern with
a nonempty byte sequence and every buffer, `find` returns the position of
the first (leftmost) window whose length equals the pattern length and
where at every position the pattern byte equals the buffer byte or the
pattern byte equals the wildcard value (a wildcard position thereby also
matches a buffer byte equal to the wildcard itself); when no such window
exists `find` returns the buffer length, and whenever the buffer is
shorter than the pattern the result is the buffer length ("not found").
For the empty pattern `find` instead reports "not found" outright. -/
theorem find_first_matching_window (sig : memory_signature) (buf : List Nat)
    (h : sig.pattern ≠ []) :
    ((matchesAt sig.wildcard buf sig.pattern (find sig buf) ∧
        ∀ j, j < find sig buf → ¬ matchesAt sig.wildcard buf sig.pattern j) ∨
      (find sig buf = buf.length ∧ ∀ j, ¬ matchesAt sig.wildcard buf sig.pattern j)) ∧
    (buf.length < sig.pattern.length → find sig buf = buf.length) := by
  have hf : find sig buf = search sig.wildcard sig.pattern buf := by
    unfold find
    rw [if_neg h]
  constructor
  · rcases search_spec sig.wildcard sig.pattern buf with hs | hs
    · left
      rw [hf]
      refine ⟨(window_match_drop sig.wildcard sig.pattern buf h _).mp hs, ?_⟩
      intro j hj hm
      have hmin := search_min sig.wildcard sig.pattern buf j hj
      have hw := (window_match_drop sig.wildcard sig.pattern buf h j).mpr hm
      rw [hmin] at hw
      exact Bool.false_ne_true hw
    · right
      refine ⟨hf.trans hs, ?_⟩
      intro j hm
      have hpos : 0 < sig.pattern.length := List.length_pos.mpr h
      by_cases hj : j < buf.length
      · have hmin := search_min sig.wildcard sig.pattern buf j (by omega)
        have hw := (window_match_drop sig.wildcard sig.pattern buf h j).mpr hm
        rw [hmin] at hw
        exact Bool.false_ne_true hw
      · obtain ⟨h1, _⟩ := hm
        omega
  · intro hlen
    rw [hf]
    exact search_shorter sig.wildcard sig.pattern buf hlen

/-- Witness: the first-matching-window theorem at a concrete input
(pattern `[1]` with wildcard 2 over buffer `[0, 1]`). -/
theorem find_first_matching_window_witness :
    (⟨[1], 2⟩ : memory_signature).pattern ≠ [] ∧
    (((matchesAt 2 [0, 1] [1] (find ⟨[1], 2⟩ [0, 1]) ∧
        ∀ j, j < find ⟨[1], 2⟩ [0, 1] → ¬ matchesAt 2 [0, 1] [1] j) ∨
      (find ⟨[1], 2⟩ [0, 1] = ([0, 1] : List Nat).length ∧
        ∀ j, ¬ matchesAt 2 [0, 1] [1] j)) ∧
     (([0, 1] : List Nat).length < ([1] : List Nat).length →
        find ⟨[1], 2⟩ [0, 1] = ([0, 1] : List Nat).length)) :=
  ⟨by decide, find_first_matching_window ⟨[1], 2⟩ [0, 1] (by decide)⟩

/-- Counterexample to C3 as stated over every Pattern: for the empty
Pattern and buffer `[0]`, the leftmost window whose length equals the
pattern length (a length-0 window at offset 0) vacuously satisfies the
matching condition, yet `find` returns 1 (the buffer length), not 0. -/
theorem empty_pattern_window_counterexample :
    matchesAt 0 [0] ([] : List Nat) 0 ∧ find ⟨[], 0⟩ [0] = 1 ∧ (1 : Nat) ≠ 0 :=
  ⟨by decide, rfl, by decide⟩

/-- C5 (confirmed): `find` on an empty Pattern reports "not found" — the
buffer end supplied by the caller — for every buffer, without scanning. -/
theorem find_empty_not_found (sig : memory_signature) (buf : List Nat)
    (h : sig.pattern = []) : find sig buf = buf.length := by
  unfold find
  rw [if_pos h]

/-- Witness: the empty-Pattern theorem at a concrete input. -/
theorem find_empty_not_found_witness : find ⟨[], 5⟩ [1, 2, 3] = 3 :=
  find_empty_not_found ⟨[], 5⟩ [1, 2, 3] rfl

/-- C9 (confirmed): the wildcard-tagged constructors reduce the supplied
wildcard value modulo 256 (the `static_cast` to one byte), so a Pattern
built with wildcard `w` and one built with wildcard `w + 256` are
matching-equivalent on every buffer. -/
theorem wildcard_mod256_equivalent (pat : List Nat) (w : Int) (buf : List Nat) :
    find (construct_wildcard pat w) buf = find (construct_wildcard pat (w + 256)) buf := by
  have h : (w + 256) % 256 = w % 256 := by omega
  unfold construct_wildcard
  rw [h]

/-! ### Claims about copy, move and totality -/

/-- C6 (code bug): the move constructor moves the `_pattern` unique_ptr
but never resets the source's `_end`, so the moved-from source is not in
the empty-Pattern state.  At the concrete input: moving from a Pattern
built from `[0x11]`, the source retains `_end` pointing one past the
transferred buffer while `_pattern` is null, so its `find` fails the
empty guard and hands `std::search` an invalid range (undefined
behaviour, modelled as `none`) instead of returning "not found"; the
destination Pattern, with the transferred buffer, keeps working. -/
theorem moved_from_source_not_empty :
    rawFind ((rawMoveCtor (rawConstruct [17] 0 5)).2) [34] = none ∧
    rawFind ((rawMoveCtor (rawConstruct [17] 0 5)).1) [17, 34] = some 0 :=
  ⟨rfl, rfl⟩

/-- C7 (confirmed): Patterns built from identical construction inputs at
different allocation addresses, and likewise a copy-constructed or
copy-assigned Pattern versus its well-formed original, return the same
`find` result on every buffer although they own distinct buffers. -/
theorem identical_inputs_matching_equivalent :
    (∀ (pat : List Nat) (w a₁ a₂ : Nat) (buf : List Nat), 1 ≤ a₁ → 1 ≤ a₂ → a₁ ≠ a₂ →
        rawFind (rawConstruct pat w a₁) buf = rawFind (rawConstruct pat w a₂) buf) ∧
    (∀ (s : RawSig) (a : Nat) (buf : List Nat), RawWF s → 1 ≤ a →
        rawFind (rawCopyCtor s a) buf = rawFind s buf) ∧
    (∀ (d s : RawSig) (a : Nat) (buf : List Nat), RawWF s → 1 ≤ a →
        rawFind (rawCopyAssign d s a) buf = rawFind s buf) := by
  refine ⟨?_, ?_, ?_⟩
  · intro pat w a₁ a₂ buf h1 h2 _
    unfold rawConstruct
    rw [rawFind_mk a₁ pat (w % 256) h1 buf, rawFind_mk a₂ pat (w % 256) h2 buf]
  · intro s a buf hw ha
    exact rawFind_copy s a hw ha buf
  · intro d s a buf hw ha
    exact rawFind_copy s a hw ha buf

/-- Witness: matching equivalence at concrete inputs (two constructions
of pattern `[3]` at addresses 1 and 2, and a copy at address 9). -/
theorem identical_inputs_matching_equivalent_witness :
    (1 ≤ 1 ∧ 1 ≤ 2 ∧ (1 : Nat) ≠ 2 ∧ RawWF (rawConstruct [3] 7 1) ∧ 1 ≤ 9) ∧
    rawFind (rawConstruct [3] 7 1) [3] = rawFind (rawConstruct [3] 7 2) [3] ∧
    rawFind (rawCopyCtor (rawConstruct [3] 7 1) 9) [3] = rawFind (rawConstruct [3] 7 1) [3] :=
  ⟨⟨by decide, by decide, by decide, by decide, by decide⟩,
   identical_inputs_matching_equivalent.1 [3] 7 1 2 [3] (by decide) (by decide) (by decide),
   identical_inputs_matching_equivalent.2.1 (rawConstruct [3] 7 1) 9 [3] (by decide) (by decide)⟩

/-- C8 (confirmed): for every well-formed Pattern state, `find` is total
— in the model it is a structurally recursive bounded scan — and never
fails: it returns a position bounded by the buffer length, and an empty
pattern or a buffer shorter than the pattern yields the normal "not
found" value (the buffer length), not an error. -/
theorem rawFind_total_bounded (s : RawSig) (buf : List Nat) (h : RawWF s) :
    ∃ r, rawFind s buf = some r ∧ r ≤ buf.length ∧
      (s.size = 0 → r = buf.length) ∧ (buf.length < s.size → r = buf.length) := by
  obtain ⟨b, pb, e, w⟩ := s
  rcases h with ⟨hb, hbuf, he⟩ | ⟨hb, he⟩
  · simp only at hb hbuf he
    subst hb; subst hbuf; subst he
    exact ⟨buf.length, by simp [rawFind], Nat.le_refl _, fun _ => rfl, fun hc => rfl⟩
  · simp only at hb he
    subst he
    have hsz : (⟨b, pb, b + pb.length, w⟩ : RawSig).size = pb.length := by
      simp [RawSig.size]
    rw [rawFind_mk b pb w hb buf]
    by_cases hp : pb = []
    · refine ⟨buf.length, by rw [if_pos hp], Nat.le_refl _, fun _ => rfl, fun _ => rfl⟩
    · refine ⟨search w pb buf, by rw [if_neg hp], search_le w pb buf, ?_, ?_⟩
      · intro hc
        rw [hsz] at hc
        exact absurd hc (by simpa [List.length_eq_zero] using hp)
      · intro hc
        rw [hsz] at hc
        exact search_shorter w pb buf hc

/-- Witness: totality and boundedness at a concrete well-formed state. -/
theorem rawFind_total_bounded_witness :
    RawWF (rawConstruct [3] 7 1) ∧
    ∃ r, rawFind (rawConstruct [3] 7 1) [9, 3] = some r ∧ r ≤ ([9, 3] : List Nat).length ∧
      ((rawConstruct [3] 7 1).size = 0 → r = ([9, 3] : List Nat).length) ∧
      (([9, 3] : List Nat).length < (rawConstruct [3] 7 1).size → r = ([9, 3] : List Nat).length) :=
  ⟨by decide, rawFind_total_bounded (rawConstruct [3] 7 1) [9, 3] (by decide)⟩

/-- C10 (code bug): copy assignment recomputes `_end` as
`_pattern.get() + other.size()` after `_pattern` has already been
replaced, so under self-assignment `other.size()` is measured between the
old `_end` and the new base, leaving `_end` dangling at the freed old
buffer.  At the concrete input: a Pattern built from `[0x11]` finds its
pattern at offset 0, but after `p = p` its `find` operates on an invalid
range (undefined behaviour, modelled as `none`) — behaviour is not
preserved. -/
theorem self_assignment_corrupts_state :
    rawFind (rawConstruct [17] 0 100) [17] = some 0 ∧
    rawFind (rawCopyAssignSelf (rawConstruct [17] 0 100) 50) [17] = none :=
  ⟨rfl, rfl⟩
